import Mathlib

/-!
Verification development for the gosh shell-command library.

The definitions below are a shallow embedding of the streaming log
pipeline in gosh.go: the line-framing buffer inside
HTTPStreamWriter.Write, the drain semantics of HTTPStreamWriter.Close,
the delivery goroutine bodies, and the Shell.Exec / Shell.Stream entry
points.  Bytes are modelled as natural numbers; the record terminator
is the newline byte 10.
-/

namespace Gosh

/-- A byte of the stream, modelled as a natural number. -/
abbrev Byte := Nat

/-- The record terminator used by the framing loop: the newline byte. -/
def newline : Byte := 10

/-- Model of bytes.Buffer.ReadBytes with delimiter newline: reads up to and
including the first newline, returning the line (terminator included) and
the remaining bytes, or none when the buffer holds no newline (the Go call
then returns the bytes read together with io.EOF and Write puts them back). -/
def readBytesNewline : List Byte → Option (List Byte × List Byte)
  | [] => none
  | b :: rest =>
      if b = newline then some ([b], rest)
      else
        match readBytesNewline rest with
        | some (line, rem) => some (b :: line, rem)
        | none => none

/-- One pass of the extraction loop in HTTPStreamWriter.Write, with explicit
fuel; each iteration removes at least one byte, so fuel equal to the buffer
length runs the loop to completion. -/
def extractLoop : Nat → List Byte → List (List Byte) × List Byte
  | 0, buf => ([], buf)
  | fuel + 1, buf =>
      match readBytesNewline buf with
      | some (line, rest) =>
          let p := extractLoop fuel rest
          (line :: p.1, p.2)
      | none => ([], buf)

/-- The extraction loop of HTTPStreamWriter.Write run to completion on a
buffer: the list of complete newline-terminated records launched for
delivery, in order, and the leftover bytes that stay buffered. -/
def extractRecords (buf : List Byte) : List (List Byte) × List Byte :=
  extractLoop buf.length buf

theorem readBytesNewline_eq_append {bs l r : List Byte}
    (h : readBytesNewline bs = some (l, r)) : bs = l ++ r := by
  induction bs generalizing l r with
  | nil => simp [readBytesNewline] at h
  | cons b rest ih =>
      simp only [readBytesNewline] at h
      by_cases hb : b = newline
      · simp [hb] at h
        simp [hb, ← h.1, ← h.2]
      · simp only [hb, if_false] at h
        cases hr : readBytesNewline rest with
        | none => simp [hr] at h
        | some pr =>
            obtain ⟨line, rem⟩ := pr
            rw [hr] at h
            simp only [Option.some.injEq, Prod.mk.injEq] at h
            obtain ⟨h1, h2⟩ := h
            subst h2
            rw [← h1]
            simpa using ih hr

theorem readBytesNewline_ends_newline {bs l r : List Byte}
    (h : readBytesNewline bs = some (l, r)) :
    ∃ l', l = l' ++ [newline] ∧ newline ∉ l' := by
  induction bs generalizing l r with
  | nil => simp [readBytesNewline] at h
  | cons b rest ih =>
      simp only [readBytesNewline] at h
      by_cases hb : b = newline
      · simp [hb] at h
        exact ⟨[], by simp [← h.1, hb], by simp⟩
      · simp only [hb, if_false] at h
        cases hr : readBytesNewline rest with
        | none => simp [hr] at h
        | some pr =>
            obtain ⟨line, rem⟩ := pr
            rw [hr] at h
            simp only [Option.some.injEq, Prod.mk.injEq] at h
            obtain ⟨h1, h2⟩ := h
            obtain ⟨l', hl', hnl⟩ := ih hr
            refine ⟨b :: l', ?_, ?_⟩
            · simp [← h1, hl']
            · simp only [List.mem_cons, not_or]
              exact ⟨fun hc => hb hc.symm, hnl⟩

theorem readBytesNewline_none_not_mem {bs : List Byte}
    (h : readBytesNewline bs = none) : newline ∉ bs := by
  induction bs with
  | nil => simp
  | cons b rest ih =>
      simp only [readBytesNewline] at h
      by_cases hb : b = newline
      · simp [hb] at h
      · simp only [hb, if_false] at h
        cases hr : readBytesNewline rest with
        | none =>
            simp only [List.mem_cons, not_or]
            exact ⟨fun hc => hb hc.symm, ih hr⟩
        | some pr => rw [hr] at h; cases h

theorem readBytesNewline_append {bs l r : List Byte} (p : List Byte)
    (h : readBytesNewline bs = some (l, r)) :
    readBytesNewline (bs ++ p) = some (l, r ++ p) := by
  induction bs generalizing l r with
  | nil => simp [readBytesNewline] at h
  | cons b rest ih =>
      simp only [readBytesNewline] at h ⊢
      by_cases hb : b = newline
      · simp [hb] at h ⊢
        exact ⟨h.1, by rw [← h.2]⟩
      · simp only [hb, if_false] at h ⊢
        cases hr : readBytesNewline rest with
        | none => rw [hr] at h; cases h
        | some pr =>
            obtain ⟨line, rem⟩ := pr
            rw [hr] at h
            simp only [Option.some.injEq, Prod.mk.injEq] at h
            rw [List.append_eq, ih hr]
            simp [h.1, h.2]

theorem readBytesNewline_terminated {L : List Byte} (rest : List Byte)
    (hL : newline ∉ L) :
    readBytesNewline (L ++ newline :: rest) = some (L ++ [newline], rest) := by
  induction L with
  | nil => simp [readBytesNewline]
  | cons b L ih =>
      simp only [List.mem_cons, not_or] at hL
      simp only [List.cons_append, readBytesNewline]
      have hb : ¬ b = newline := fun hc => hL.1 hc.symm
      simp only [hb, if_false]
      rw [List.append_eq, ih hL.2]

theorem readBytesNewline_rest_lt {bs l r : List Byte}
    (h : readBytesNewline bs = some (l, r)) : r.length < bs.length := by
  have hbs := readBytesNewline_eq_append h
  obtain ⟨l', hl', -⟩ := readBytesNewline_ends_newline h
  subst hbs
  simp [hl']
  omega

theorem extractLoop_nil (fuel : Nat) : extractLoop fuel [] = ([], []) := by
  cases fuel with
  | zero => rfl
  | succ n => simp [extractLoop, readBytesNewline]

theorem extractLoop_congr :
    ∀ (f1 f2 : Nat) (buf : List Byte), buf.length ≤ f1 → buf.length ≤ f2 →
      extractLoop f1 buf = extractLoop f2 buf := by
  intro f1
  induction f1 with
  | zero =>
      intro f2 buf h1 _
      have : buf = [] := List.length_eq_zero.mp (Nat.le_zero.mp h1)
      subst this
      rw [extractLoop_nil, extractLoop_nil]
  | succ n ih =>
      intro f2 buf h1 h2
      cases hr : readBytesNewline buf with
      | none =>
          cases f2 with
          | zero =>
              have : buf = [] := List.length_eq_zero.mp (Nat.le_zero.mp h2)
              subst this
              rw [extractLoop_nil, extractLoop_nil]
          | succ m => simp [extractLoop, hr]
      | some pr =>
          obtain ⟨line, rest⟩ := pr
          have hlt := readBytesNewline_rest_lt hr
          cases f2 with
          | zero =>
              exfalso
              have : buf = [] := List.length_eq_zero.mp (Nat.le_zero.mp h2)
              subst this
              simp [readBytesNewline] at hr
          | succ m =>
              simp only [extractLoop, hr]
              have hrn : rest.length ≤ n := by omega
              have hrm : rest.length ≤ m := by omega
              rw [ih m rest hrn hrm]

theorem extractRecords_some {buf l r : List Byte}
    (h : readBytesNewline buf = some (l, r)) :
    extractRecords buf = (l :: (extractRecords r).1, (extractRecords r).2) := by
  have hlt := readBytesNewline_rest_lt h
  unfold extractRecords
  cases hn : buf.length with
  | zero =>
      exfalso
      have : buf = [] := List.length_eq_zero.mp hn
      subst this
      simp [readBytesNewline] at h
  | succ n =>
      simp only [extractLoop, h]
      have : extractLoop n r = extractLoop r.length r :=
        extractLoop_congr n r.length r (by omega) (le_refl _)
      rw [this]

theorem extractRecords_none {buf : List Byte}
    (h : readBytesNewline buf = none) : extractRecords buf = ([], buf) := by
  unfold extractRecords
  cases buf.length with
  | zero => rfl
  | succ n => simp [extractLoop, h]

theorem extractRecords_nil : extractRecords [] = ([], []) := rfl

theorem extractRecords_append_aux :
    ∀ (n : Nat) (t p : List Byte), t.length ≤ n →
      extractRecords (t ++ p)
        = ((extractRecords t).1 ++ (extractRecords ((extractRecords t).2 ++ p)).1,
           (extractRecords ((extractRecords t).2 ++ p)).2) := by
  intro n
  induction n with
  | zero =>
      intro t p ht
      have : t = [] := List.length_eq_zero.mp (Nat.le_zero.mp ht)
      subst this
      simp [extractRecords_nil]
  | succ n ih =>
      intro t p ht
      cases hr : readBytesNewline t with
      | none =>
          rw [extractRecords_none hr]
          simp
      | some pr =>
          obtain ⟨l, r⟩ := pr
          have hlt := readBytesNewline_rest_lt hr
          have hsome := extractRecords_some hr
          have happ := readBytesNewline_append p hr
          have hsome2 := extractRecords_some happ
          rw [hsome2, hsome]
          have hihr := ih r p (by omega)
          simp only [List.cons_append]
          rw [hihr]

theorem extractRecords_append (t p : List Byte) :
    extractRecords (t ++ p)
      = ((extractRecords t).1 ++ (extractRecords ((extractRecords t).2 ++ p)).1,
         (extractRecords ((extractRecords t).2 ++ p)).2) :=
  extractRecords_append_aux t.length t p (le_refl _)

theorem extractRecords_join_terminated (Ls : List (List Byte))
    (hfree : ∀ L ∈ Ls, newline ∉ L) :
    extractRecords (Ls.map (fun L => L ++ [newline])).flatten
      = (Ls.map (fun L => L ++ [newline]), []) := by
  induction Ls with
  | nil => simp [extractRecords_nil]
  | cons L Ls ih =>
      have hL : newline ∉ L := hfree L (List.mem_cons_self _ _)
      have hrest : ∀ M ∈ Ls, newline ∉ M := fun M hM => hfree M (List.mem_cons_of_mem _ hM)
      have hjoin :
          ((L :: Ls).map (fun M => M ++ [newline])).flatten
            = L ++ newline :: (Ls.map (fun M => M ++ [newline])).flatten := by
        simp
      rw [hjoin]
      have hread := readBytesNewline_terminated (Ls.map (fun M => M ++ [newline])).flatten hL
      rw [extractRecords_some hread, ih hrest]
      simp

theorem extractRecords_join_flat_aux :
    ∀ (n : Nat) (bs : List Byte), bs.length ≤ n →
      (extractRecords bs).1.flatten ++ (extractRecords bs).2 = bs := by
  intro n
  induction n with
  | zero =>
      intro bs hb
      have : bs = [] := List.length_eq_zero.mp (Nat.le_zero.mp hb)
      subst this
      simp [extractRecords_nil]
  | succ n ih =>
      intro bs hb
      cases hr : readBytesNewline bs with
      | none => rw [extractRecords_none hr]; simp
      | some pr =>
          obtain ⟨l, r⟩ := pr
          have hlt := readBytesNewline_rest_lt hr
          rw [extractRecords_some hr]
          simp only [List.flatten_cons, List.append_assoc]
          rw [ih r (by omega)]
          exact (readBytesNewline_eq_append hr).symm

/-- Every record extracted by the framing loop ends in the newline terminator
and contains no interior newline. -/
theorem extractRecords_terminated_aux :
    ∀ (n : Nat) (bs : List Byte), bs.length ≤ n →
      ∀ rec ∈ (extractRecords bs).1, ∃ l', rec = l' ++ [newline] ∧ newline ∉ l' := by
  intro n
  induction n with
  | zero =>
      intro bs hb
      have : bs = [] := List.length_eq_zero.mp (Nat.le_zero.mp hb)
      subst this
      simp [extractRecords_nil]
  | succ n ih =>
      intro bs hb rec hrec
      cases hr : readBytesNewline bs with
      | none => rw [extractRecords_none hr] at hrec; simp at hrec
      | some pr =>
          obtain ⟨l, r⟩ := pr
          have hlt := readBytesNewline_rest_lt hr
          rw [extractRecords_some hr] at hrec
          rcases List.mem_cons.mp hrec with heq | hmem
          · subst heq
            exact readBytesNewline_ends_newline hr
          · exact ih r (by omega) rec hmem

/-- The state of one Dispatch Writer (HTTPStreamWriter): the Frame Buffer
and the records launched for delivery so far, in launch order.  The url,
client and headers fields of the Go struct do not affect framing and are
not part of this state. -/
structure HTTPStreamWriter where
  buffer : List Byte
  sent : List (List Byte)
deriving Repr, DecidableEq

/-- A freshly constructed writer: empty buffer, nothing launched. -/
def HTTPStreamWriter.mk0 : HTTPStreamWriter := ⟨[], []⟩

/-- Model of HTTPStreamWriter.Write (gosh.go lines 444-494): append the
incoming bytes to the buffer, extract every complete newline-terminated
line, launch one delivery per line; the call returns the full byte count
and a nil error. -/
def HTTPStreamWriter.write (w : HTTPStreamWriter) (p : List Byte) :
    HTTPStreamWriter × Nat × Option String :=
  let er := extractRecords (w.buffer ++ p)
  (⟨er.2, w.sent ++ er.1⟩, p.length, none)

/-- Feed a sequence of chunks through HTTPStreamWriter.Write in order. -/
def HTTPStreamWriter.feedAll (w : HTTPStreamWriter) : List (List Byte) → HTTPStreamWriter
  | [] => w
  | p :: ps => HTTPStreamWriter.feedAll (w.write p).1 ps

/-- Model of the buffer flush performed by HTTPStreamWriter.Close
(gosh.go lines 499-532): when the buffer is non-empty its whole content
is launched as one final delivery and the buffer is reset. -/
def HTTPStreamWriter.closeFlush (w : HTTPStreamWriter) : HTTPStreamWriter :=
  if w.buffer = [] then w else ⟨[], w.sent ++ [w.buffer]⟩

theorem feedAll_extract (ps : List (List Byte)) :
    ∀ t : List Byte,
      HTTPStreamWriter.feedAll ⟨(extractRecords t).2, (extractRecords t).1⟩ ps
        = ⟨(extractRecords (t ++ ps.flatten)).2, (extractRecords (t ++ ps.flatten)).1⟩ := by
  induction ps with
  | nil => intro t; simp [HTTPStreamWriter.feedAll]
  | cons p ps ih =>
      intro t
      have hstep :
          (HTTPStreamWriter.write ⟨(extractRecords t).2, (extractRecords t).1⟩ p).1
            = ⟨(extractRecords (t ++ p)).2, (extractRecords (t ++ p)).1⟩ := by
        simp only [HTTPStreamWriter.write, extractRecords_append t p]
      simp only [HTTPStreamWriter.feedAll, hstep, ih (t ++ p)]
      simp [List.append_assoc]

theorem feedAll_mk0 (ps : List (List Byte)) :
    HTTPStreamWriter.feedAll HTTPStreamWriter.mk0 ps
      = ⟨(extractRecords ps.flatten).2, (extractRecords ps.flatten).1⟩ := by
  have h := feedAll_extract ps []
  simpa [extractRecords_nil, HTTPStreamWriter.mk0] using h

/-- Spec-side description of the Frame Buffer invariant: the suffix of a
byte sequence strictly after its last newline (the whole sequence when it
holds no newline). -/
def afterLastNewline (bs : List Byte) : List Byte :=
  (bs.reverse.takeWhile (fun b => b != newline)).reverse

theorem takeWhile_eq_self_of_forall {p : Byte → Bool} :
    ∀ {l : List Byte}, (∀ b ∈ l, p b = true) → l.takeWhile p = l := by
  intro l
  induction l with
  | nil => intro _; rfl
  | cons b rest ih =>
      intro h
      have hb : p b = true := h b (List.mem_cons_self _ _)
      simp only [List.takeWhile_cons, hb, if_true]
      rw [ih fun x hx => h x (List.mem_cons_of_mem _ hx)]

theorem takeWhile_append_stop {p : Byte → Bool} {y : Byte} (hy : p y = false) :
    ∀ (xs ys : List Byte), (xs ++ y :: ys).takeWhile p = xs.takeWhile p := by
  intro xs ys
  induction xs with
  | nil => simp [List.takeWhile_cons, hy]
  | cons x xs ih =>
      simp only [List.cons_append, List.takeWhile_cons]
      cases hx : p x with
      | true => simp [ih]
      | false => simp

theorem afterLastNewline_of_not_mem {bs : List Byte} (h : newline ∉ bs) :
    afterLastNewline bs = bs := by
  unfold afterLastNewline
  rw [takeWhile_eq_self_of_forall, List.reverse_reverse]
  intro b hb
  have : b ∈ bs := List.mem_reverse.mp hb
  simp only [bne_iff_ne, ne_eq, decide_eq_true_eq]
  exact fun hc => h (hc ▸ this)

theorem afterLastNewline_append (l' r : List Byte) :
    afterLastNewline (l' ++ newline :: r) = afterLastNewline r := by
  unfold afterLastNewline
  have hrev : (l' ++ newline :: r).reverse = r.reverse ++ newline :: l'.reverse := by
    simp [List.reverse_append]
  rw [hrev, takeWhile_append_stop (by simp) r.reverse l'.reverse]

theorem extractRecords_snd_afterLastNewline_aux :
    ∀ (n : Nat) (bs : List Byte), bs.length ≤ n →
      (extractRecords bs).2 = afterLastNewline bs := by
  intro n
  induction n with
  | zero =>
      intro bs hb
      have : bs = [] := List.length_eq_zero.mp (Nat.le_zero.mp hb)
      subst this
      simp [extractRecords_nil, afterLastNewline]
  | succ n ih =>
      intro bs hb
      cases hr : readBytesNewline bs with
      | none =>
          rw [extractRecords_none hr,
            afterLastNewline_of_not_mem (readBytesNewline_none_not_mem hr)]
      | some pr =>
          obtain ⟨l, r⟩ := pr
          have hlt := readBytesNewline_rest_lt hr
          have hbs := readBytesNewline_eq_append hr
          obtain ⟨l', hl', -⟩ := readBytesNewline_ends_newline hr
          rw [extractRecords_some hr]
          have hshape : bs = l' ++ newline :: r := by
            rw [hbs, hl']
            simp
          rw [hshape, afterLastNewline_append]
          exact ih r (by omega)

theorem extractRecords_snd_afterLastNewline (bs : List Byte) :
    (extractRecords bs).2 = afterLastNewline bs :=
  extractRecords_snd_afterLastNewline_aux bs.length bs (le_refl _)

theorem closeFlush_buffer (w : HTTPStreamWriter) : w.closeFlush.buffer = [] := by
  by_cases h : w.buffer = [] <;> simp [HTTPStreamWriter.closeFlush, h]

/-- C1 counterexample: feeding the single write consisting of the bytes of
"a\n" launches the record "a\n" — the newline terminator is retained in the
extracted record, so the record is not the bare line "a". -/
theorem c1_terminator_not_stripped :
    (HTTPStreamWriter.feedAll HTTPStreamWriter.mk0 [[97, newline]]).sent ≠ [[97]] := by
  decide

/-- C1 (amended): for every sequence of byte writes whose concatenation is
L1\n L2\n ... Ln\n, feeding the writes in any chunking launches exactly the
records L1\n, L2\n, ..., Ln\n, in order — each record carries its newline
terminator (the terminator is retained, not stripped) — and the Frame
Buffer is left empty. -/
theorem c1_framing_chunking_invariant (ps Ls : List (List Byte))
    (hfree : ∀ L ∈ Ls, newline ∉ L)
    (hjoin : ps.flatten = (Ls.map (fun L => L ++ [newline])).flatten) :
    (HTTPStreamWriter.feedAll HTTPStreamWriter.mk0 ps).sent
        = Ls.map (fun L => L ++ [newline]) ∧
    (HTTPStreamWriter.feedAll HTTPStreamWriter.mk0 ps).buffer = [] := by
  rw [feedAll_mk0 ps]
  simp only [hjoin, extractRecords_join_terminated Ls hfree]
  exact ⟨trivial, trivial⟩

theorem c1_framing_chunking_invariant_witness :
    (HTTPStreamWriter.feedAll HTTPStreamWriter.mk0 [[97], [newline, 98, newline]]).sent
        = ([[97], [98]].map (fun L => L ++ [newline])) ∧
    (HTTPStreamWriter.feedAll HTTPStreamWriter.mk0 [[97], [newline, 98, newline]]).buffer
        = [] :=
  c1_framing_chunking_invariant [[97], [newline, 98, newline]] [[97], [98]]
    (by decide) (by decide)

/-- C6 counterexample: feeding "abc" then "def\n" yields one record, but the
record's bytes are "abcdef\n" with the newline terminator retained, not the
bare "abcdef" the claim states. -/
theorem c6_record_not_bare :
    (HTTPStreamWriter.feedAll HTTPStreamWriter.mk0
        [[97, 98, 99], [100, 101, 102, newline]]).sent
      ≠ [[97, 98, 99, 100, 101, 102]] := by
  decide

/-- C6 (amended): feeding the write "abc" followed by the write "def\n"
yields exactly one record, whose bytes are "abcdef\n" — the incomplete tail
of the first write is preserved in the buffer and joined with the second
write, never emitted as a separate record; the record keeps its newline
terminator. -/
theorem c6_partial_tail_joined :
    (HTTPStreamWriter.feedAll HTTPStreamWriter.mk0
        [[97, 98, 99], [100, 101, 102, newline]]).sent
      = [[97, 98, 99, 100, 101, 102, newline]] := by
  decide

/-- C7: after any sequence of Write calls the Frame Buffer holds exactly the
suffix of all bytes written so far after the last newline terminator; the
bytes removed from the buffer are exactly the launched records, each a
complete newline-terminated record; and the flush in Close empties the
buffer. -/
theorem c7_frame_buffer_invariant (ps : List (List Byte)) :
    (HTTPStreamWriter.feedAll HTTPStreamWriter.mk0 ps).buffer
        = afterLastNewline ps.flatten ∧
    (HTTPStreamWriter.feedAll HTTPStreamWriter.mk0 ps).sent.flatten
        ++ (HTTPStreamWriter.feedAll HTTPStreamWriter.mk0 ps).buffer = ps.flatten ∧
    (∀ rec ∈ (HTTPStreamWriter.feedAll HTTPStreamWriter.mk0 ps).sent,
        ∃ l', rec = l' ++ [newline] ∧ newline ∉ l') ∧
    (HTTPStreamWriter.feedAll HTTPStreamWriter.mk0 ps).closeFlush.buffer = [] := by
  rw [feedAll_mk0 ps]
  refine ⟨?_, ?_, ?_, ?_⟩
  · exact extractRecords_snd_afterLastNewline ps.flatten
  · exact extractRecords_join_flat_aux ps.flatten.length ps.flatten (le_refl _)
  · exact fun rec hrec =>
      extractRecords_terminated_aux ps.flatten.length ps.flatten (le_refl _) rec hrec
  · exact closeFlush_buffer _

/-- The possible outcomes of one HTTP delivery attempt as seen by the
delivery goroutine: request construction fails, the round trip fails
(transport error or client timeout), or a response arrives with the given
status code. -/
inductive Outcome
  | newRequestError
  | transportError
  | response (status : Nat)
deriving Repr, DecidableEq

/-- What a delivery goroutine does with its outcome: in every case it only
prints a diagnostic (or nothing) and returns; no value reaches the writer. -/
inductive DeliveryObservation
  | createFailedLogged
  | sendFailedLogged
  | badStatusLogged (status : Nat)
  | delivered
deriving Repr, DecidableEq

/-- Model of the per-record delivery goroutine launched by
HTTPStreamWriter.Write (gosh.go lines 462-490): a request-construction or
transport failure is printed and the goroutine returns; a response with
status at least 400 is printed as well; nothing is raised to the caller. -/
def deliverRecord : Outcome → DeliveryObservation
  | .newRequestError => .createFailedLogged
  | .transportError => .sendFailedLogged
  | .response st => if 400 ≤ st then .badStatusLogged st else .delivered

/-- Model of the final-flush goroutine launched by HTTPStreamWriter.Close
(gosh.go lines 507-529): like the Write goroutine but without the status
code check. -/
def deliverFinal : Outcome → DeliveryObservation
  | .newRequestError => .createFailedLogged
  | .transportError => .sendFailedLogged
  | .response _ => .delivered

/-- Model of HTTPStreamWriter.Write together with the observations of the
delivery goroutines it launches; the i-th goroutine launched by this call
sees outcome oc i.  Result: new writer state, returned byte count,
returned error, goroutine observations in launch order. -/
def HTTPStreamWriter.writeObserved (w : HTTPStreamWriter) (p : List Byte)
    (oc : Nat → Outcome) :
    HTTPStreamWriter × Nat × Option String × List DeliveryObservation :=
  let er := extractRecords (w.buffer ++ p)
  (⟨er.2, w.sent ++ er.1⟩, p.length, none,
    (List.range er.1.length).map (fun i => deliverRecord (oc i)))

/-- Model of HTTPStreamWriter.Close (gosh.go lines 497-537): flush any
buffered remainder as one final delivery whose goroutine sees outcome oc,
wait for all goroutines, and return a nil error. -/
def HTTPStreamWriter.close (w : HTTPStreamWriter) (oc : Outcome) :
    HTTPStreamWriter × Option String × Option DeliveryObservation :=
  if w.buffer = [] then (w, none, none)
  else (⟨[], w.sent ++ [w.buffer]⟩, none, some (deliverFinal oc))

/-- C3: for every input byte slice p, HTTPStreamWriter.Write returns the
full byte count len p and a nil error, regardless of the outcome of any
delivery it launches. -/
theorem c3_write_reports_full_count (w : HTTPStreamWriter) (p : List Byte)
    (oc : Nat → Outcome) :
    (w.writeObserved p oc).2.1 = p.length ∧ (w.writeObserved p oc).2.2.1 = none :=
  ⟨rfl, rfl⟩

/-- C5: every delivery failure is observed and swallowed inside its own
delivery goroutine: Write and Close return nil errors for every outcome,
and the i-th goroutine's observation is deliverRecord of its own outcome
alone, so one delivery's failure never aborts a sibling delivery. -/
theorem c5_delivery_failures_swallowed (w : HTTPStreamWriter) (p : List Byte)
    (oc : Nat → Outcome) (oc' : Outcome) (i : Nat)
    (hi : i < (extractRecords (w.buffer ++ p)).1.length) :
    (w.writeObserved p oc).2.2.1 = none ∧
    (w.close oc').2.1 = none ∧
    (w.writeObserved p oc).2.2.2[i]? = some (deliverRecord (oc i)) := by
  refine ⟨rfl, ?_, ?_⟩
  · by_cases h : w.buffer = [] <;> simp [HTTPStreamWriter.close, h]
  · simp [HTTPStreamWriter.writeObserved, List.getElem?_map, List.getElem?_range, hi]

theorem c5_delivery_failures_swallowed_witness :
    (HTTPStreamWriter.mk0.writeObserved [97, newline]
        (fun _ => Outcome.transportError)).2.2.1 = none ∧
    (HTTPStreamWriter.mk0.close Outcome.transportError).2.1 = none ∧
    (HTTPStreamWriter.mk0.writeObserved [97, newline]
        (fun _ => Outcome.transportError)).2.2.2[0]?
      = some (deliverRecord ((fun _ => Outcome.transportError) 0)) :=
  c5_delivery_failures_swallowed HTTPStreamWriter.mk0 [97, newline]
    (fun _ => Outcome.transportError) Outcome.transportError 0 (by decide)

/-- The lifecycle phase of one Dispatch Writer: accepting writes; inside
Close between the final-flush launch and the WaitGroup wait; or Close has
returned. -/
inductive Phase
  | running
  | closing
  | closed
deriving Repr, DecidableEq

/-- One Dispatch Writer together with its WaitGroup counter: lifecycle
phase, Frame Buffer, and the number of in-flight delivery goroutines. -/
structure DispatchState where
  phase : Phase
  buffer : List Byte
  inflight : Nat
deriving Repr, DecidableEq

/-- A freshly constructed writer: accepting writes, empty buffer, no
in-flight deliveries. -/
def DispatchState.start : DispatchState := ⟨.running, [], 0⟩

/-- Interleaved small-step semantics of one Dispatch Writer.  A Write call
appends and frames, adding one in-flight goroutine per extracted record
(wg.Add before each launch); a goroutine finishing decrements the counter
(wg.Done), whatever its outcome; Close first launches the final flush of a
non-empty buffer and then returns only once the counter is zero
(wg.Wait). -/
inductive DStep : DispatchState → DispatchState → Prop
  | write (s : DispatchState) (p : List Byte) (h : s.phase = .running) :
      DStep s ⟨.running, (extractRecords (s.buffer ++ p)).2,
               s.inflight + (extractRecords (s.buffer ++ p)).1.length⟩
  | complete (s : DispatchState) (h : 0 < s.inflight) :
      DStep s ⟨s.phase, s.buffer, s.inflight - 1⟩
  | closeFlushLaunch (s : DispatchState) (h : s.phase = .running) :
      DStep s ⟨.closing, [], s.inflight + (if s.buffer = [] then 0 else 1)⟩
  | closeReturn (s : DispatchState) (h : s.phase = .closing)
      (hz : s.inflight = 0) :
      DStep s ⟨.closed, s.buffer, 0⟩

/-- C2: in every execution of the Dispatch Writer — any number of prior
writes and goroutine completions — once Close has returned, the in-flight
delivery count is exactly 0: no launched delivery task is still running
post-close. -/
theorem c2_drain_complete (s : DispatchState)
    (hreach : Relation.ReflTransGen DStep DispatchState.start s)
    (hclosed : s.phase = .closed) : s.inflight = 0 := by
  induction hreach with
  | refl => cases hclosed
  | tail hsteps hstep ih =>
      cases hstep with
      | write p h => cases hclosed
      | complete h =>
          have hz := ih hclosed
          omega
      | closeFlushLaunch h => cases hclosed
      | closeReturn h hz => rfl

theorem c2_drain_complete_witness :
    (⟨Phase.closed, [], 0⟩ : DispatchState).inflight = 0 := by
  have h0 : Relation.ReflTransGen DStep DispatchState.start ⟨.running, [], 1⟩ :=
    Relation.ReflTransGen.single (DStep.write DispatchState.start [97, newline] rfl)
  have h1 : Relation.ReflTransGen DStep DispatchState.start ⟨.running, [98], 1⟩ :=
    h0.tail (DStep.write ⟨.running, [], 1⟩ [98] rfl)
  have h2 : Relation.ReflTransGen DStep DispatchState.start ⟨.running, [98], 0⟩ :=
    h1.tail (DStep.complete ⟨.running, [98], 1⟩ (by decide))
  have h3 : Relation.ReflTransGen DStep DispatchState.start ⟨.closing, [], 1⟩ :=
    h2.tail (DStep.closeFlushLaunch ⟨.running, [98], 0⟩ rfl)
  have h4 : Relation.ReflTransGen DStep DispatchState.start ⟨.closing, [], 0⟩ :=
    h3.tail (DStep.complete ⟨.closing, [], 1⟩ (by decide))
  have h5 : Relation.ReflTransGen DStep DispatchState.start ⟨.closed, [], 0⟩ :=
    h4.tail (DStep.closeReturn ⟨.closing, [], 0⟩ rfl rfl)
  exact c2_drain_complete ⟨Phase.closed, [], 0⟩ h5 rfl

/-- Model of unicode.IsSpace as used by strings.TrimSpace, restricted to
the ASCII white space characters: space, tab, newline, carriage return,
vertical tab and form feed. -/
def isSpaceChar (c : Char) : Bool :=
  c = ' ' || c = '\t' || c = '\n' || c = '\r' || c = '\x0b' || c = '\x0c'

/-- Model of strings.TrimSpace: drop white space from both ends. -/
def trimSpace (s : String) : String :=
  ⟨((s.data.dropWhile isSpaceChar).reverse.dropWhile isSpaceChar).reverse⟩

/-- The level of a log record: zerolog info or error. -/
inductive Level
  | info
  | error
deriving Repr, DecidableEq

/-- One structured log record as assembled through zerolog: level, message
and the static key/value attributes added via LogKV. -/
structure LogRecord where
  level : Level
  msg : String
  attrs : List (String × String)
deriving Repr, DecidableEq

/-- The Shell builder state that Exec and Stream consume: the configured
command, arguments, directory, environment, static log attributes, and
whether an HTTP stream writer is attached. -/
structure Shell where
  command : String
  args : List String
  dir : String
  env : List String
  logKVs : List (String × String)
  httpConfigured : Bool
deriving Repr, DecidableEq

/-- The result of running the configured process to completion: the raw
captured stdout and stderr and the error from cmd.Run (none on exit
status zero; a start failure or non-zero exit otherwise). -/
structure ProcResult where
  stdout : String
  stderr : String
  exitError : Option String
deriving Repr, DecidableEq

/-- The message Exec and Stream return when no command was configured. -/
def noCommandError : String :=
  "no command specified - use Arg() or Command() to set the command"

/-- The observable effect of one Shell.Exec call: the returned trimmed
stdout, the returned error, whether the process was run, the log records
emitted, and the observations of the HTTP deliveries these records
triggered (one per record when an HTTP writer is configured). -/
structure ExecEffect where
  output : String
  err : Option String
  ran : Bool
  logs : List LogRecord
  deliveries : List DeliveryObservation
deriving Repr, DecidableEq

/-- Model of Shell.Exec (gosh.go lines 662-711), parameterised by the
process result and by the outcome each HTTP delivery goroutine sees: fail
fast when no command is set; otherwise run the process, trim both
captured streams, log non-empty stderr at error level and non-empty
stdout at info level (each with the static attributes), and return the
trimmed stdout together with the error from cmd.Run.  Delivery outcomes
are observed only inside the delivery goroutines. -/
def Shell.exec (sh : Shell) (run : ProcResult) (oc : Nat → Outcome) : ExecEffect :=
  if sh.command = "" then
    { output := "", err := some noCommandError, ran := false, logs := [],
      deliveries := [] }
  else
    let stdout := trimSpace run.stdout
    let stderr := trimSpace run.stderr
    let logs :=
      (if stderr = "" then [] else [⟨Level.error, stderr, sh.logKVs⟩]) ++
      (if stdout = "" then [] else [⟨Level.info, stdout, sh.logKVs⟩])
    { output := stdout
      err := run.exitError
      ran := true
      logs := logs
      deliveries :=
        if sh.httpConfigured then
          (List.range logs.length).map (fun i => deliverRecord (oc i))
        else [] }

/-- The observable effect of one Shell.Stream call. -/
structure StreamEffect where
  err : Option String
  started : Bool
  stdoutRecords : List LogRecord
  stderrRecords : List LogRecord
deriving Repr, DecidableEq

/-- The per-pipe scanning goroutine of Shell.Stream: every non-empty line
becomes one record at the given level with the static attributes; empty
lines are skipped. -/
def scanLines (level : Level) (kvs : List (String × String))
    (lines : List String) : List LogRecord :=
  lines.filterMap (fun line => if line = "" then none else some ⟨level, line, kvs⟩)

/-- Model of Shell.Stream (gosh.go lines 717-796), parameterised by
whether cmd.Start succeeds, the lines each pipe's scanner yields, and the
error from cmd.Wait: fail fast when no command is set; on start failure
return an error without streaming; otherwise stdout lines become info
records and stderr lines error records. -/
def Shell.stream (sh : Shell) (startOk : Bool)
    (stdoutLines stderrLines : List String) (exitError : Option String) :
    StreamEffect :=
  if sh.command = "" then ⟨some noCommandError, false, [], []⟩
  else if startOk then
    ⟨exitError, true, scanLines .info sh.logKVs stdoutLines,
      scanLines .error sh.logKVs stderrLines⟩
  else ⟨some "failed to start command", false, [], []⟩

theorem scanLines_eq (level : Level) (kvs : List (String × String))
    (lines : List String) :
    scanLines level kvs lines
      = (lines.filter (fun l => !(l == ""))).map (fun l => ⟨level, l, kvs⟩) := by
  induction lines with
  | nil => rfl
  | cons l ls ih =>
      by_cases h : l = "" <;>
        simp [scanLines, List.filterMap_cons, List.filter_cons, h] <;>
        simpa [scanLines] using ih

/-- C4: for a command that otherwise succeeds, the delivery outcomes —
reachable or unreachable collector — change neither the string Exec
returns nor its returned error: both runs return the same captured
output and the same (nil) error value. -/
theorem c4_delivery_isolation (sh : Shell) (run : ProcResult)
    (oc oc' : Nat → Outcome)
    (hcmd : sh.command ≠ "") (hok : run.exitError = none) :
    (sh.exec run oc).output = (sh.exec run oc').output ∧
    (sh.exec run oc).err = (sh.exec run oc').err ∧
    (sh.exec run oc).err = none := by
  simp [Shell.exec, hcmd, hok]

theorem c4_delivery_isolation_witness :
    ((⟨"echo", ["ok"], "", [], [], true⟩ : Shell).exec ⟨"ok", "", none⟩
        (fun _ => Outcome.transportError)).output
      = ((⟨"echo", ["ok"], "", [], [], true⟩ : Shell).exec ⟨"ok", "", none⟩
        (fun _ => Outcome.response 200)).output ∧
    ((⟨"echo", ["ok"], "", [], [], true⟩ : Shell).exec ⟨"ok", "", none⟩
        (fun _ => Outcome.transportError)).err
      = ((⟨"echo", ["ok"], "", [], [], true⟩ : Shell).exec ⟨"ok", "", none⟩
        (fun _ => Outcome.response 200)).err ∧
    ((⟨"echo", ["ok"], "", [], [], true⟩ : Shell).exec ⟨"ok", "", none⟩
        (fun _ => Outcome.transportError)).err = none :=
  c4_delivery_isolation ⟨"echo", ["ok"], "", [], [], true⟩ ⟨"ok", "", none⟩
    (fun _ => Outcome.transportError) (fun _ => Outcome.response 200)
    (by decide) rfl

/-- C8: during Stream, every non-empty stdout line becomes an info-level
record and every non-empty stderr line an error-level record, each
carrying the configured static attributes; empty lines produce no
record. -/
theorem c8_level_mapping (sh : Shell) (stdoutLines stderrLines : List String)
    (e : Option String) (hcmd : sh.command ≠ "") :
    (sh.stream true stdoutLines stderrLines e).stdoutRecords
      = (stdoutLines.filter (fun l => !(l == ""))).map
          (fun l => ⟨Level.info, l, sh.logKVs⟩) ∧
    (sh.stream true stdoutLines stderrLines e).stderrRecords
      = (stderrLines.filter (fun l => !(l == ""))).map
          (fun l => ⟨Level.error, l, sh.logKVs⟩) := by
  simp [Shell.stream, hcmd, scanLines_eq]

theorem c8_level_mapping_witness :
    ((⟨"sh", [], "", [], [("k", "v")], false⟩ : Shell).stream true
        ["hello world", ""] ["no such file"] none).stdoutRecords
      = ((["hello world", ""].filter (fun l => !(l == ""))).map
          (fun l => ⟨Level.info, l, [("k", "v")]⟩)) ∧
    ((⟨"sh", [], "", [], [("k", "v")], false⟩ : Shell).stream true
        ["hello world", ""] ["no such file"] none).stderrRecords
      = ((["no such file"].filter (fun l => !(l == ""))).map
          (fun l => ⟨Level.error, l, [("k", "v")]⟩)) :=
  c8_level_mapping ⟨"sh", [], "", [], [("k", "v")], false⟩
    ["hello world", ""] ["no such file"] none (by decide)

/-- C9: when no command has been set, Exec and Stream both return the
configuration error synchronously: the process is never run or started,
no record is produced, and no delivery is launched. -/
theorem c9_no_command_fails_fast (sh : Shell) (run : ProcResult)
    (oc : Nat → Outcome) (startOk : Bool)
    (stdoutLines stderrLines : List String) (e : Option String)
    (hcmd : sh.command = "") :
    (sh.exec run oc).err = some noCommandError ∧
    (sh.exec run oc).ran = false ∧
    (sh.exec run oc).logs = [] ∧
    (sh.exec run oc).deliveries = [] ∧
    (sh.stream startOk stdoutLines stderrLines e).err = some noCommandError ∧
    (sh.stream startOk stdoutLines stderrLines e).started = false ∧
    (sh.stream startOk stdoutLines stderrLines e).stdoutRecords = [] ∧
    (sh.stream startOk stdoutLines stderrLines e).stderrRecords = [] := by
  simp [Shell.exec, Shell.stream, hcmd]

theorem c9_no_command_fails_fast_witness :
    ((⟨"", [], "/tmp", [], [], false⟩ : Shell).exec ⟨"", "", none⟩
        (fun _ => Outcome.response 200)).err = some noCommandError ∧
    ((⟨"", [], "/tmp", [], [], false⟩ : Shell).exec ⟨"", "", none⟩
        (fun _ => Outcome.response 200)).ran = false ∧
    ((⟨"", [], "/tmp", [], [], false⟩ : Shell).exec ⟨"", "", none⟩
        (fun _ => Outcome.response 200)).logs = [] ∧
    ((⟨"", [], "/tmp", [], [], false⟩ : Shell).exec ⟨"", "", none⟩
        (fun _ => Outcome.response 200)).deliveries = [] ∧
    ((⟨"", [], "/tmp", [], [], false⟩ : Shell).stream true [] [] none).err
      = some noCommandError ∧
    ((⟨"", [], "/tmp", [], [], false⟩ : Shell).stream true [] [] none).started
      = false ∧
    ((⟨"", [], "/tmp", [], [], false⟩ : Shell).stream true [] [] none).stdoutRecords
      = [] ∧
    ((⟨"", [], "/tmp", [], [], false⟩ : Shell).stream true [] [] none).stderrRecords
      = [] :=
  c9_no_command_fails_fast ⟨"", [], "/tmp", [], [], false⟩ ⟨"", "", none⟩
    (fun _ => Outcome.response 200) true [] [] none rfl

/-- C10: in Exec the logging of the two captured streams does not depend
on the exit status: the emitted records are exactly an error record for a
non-empty trimmed stderr followed by an info record for a non-empty
trimmed stdout, whatever the exit error is; in particular the error
record appears even on success and the info record even on failure. -/
theorem c10_exec_logs_unconditional (sh : Shell) (run : ProcResult)
    (oc : Nat → Outcome) (e' : Option String) (hcmd : sh.command ≠ "") :
    (sh.exec run oc).logs
      = (if trimSpace run.stderr = "" then []
         else [⟨Level.error, trimSpace run.stderr, sh.logKVs⟩]) ++
        (if trimSpace run.stdout = "" then []
         else [⟨Level.info, trimSpace run.stdout, sh.logKVs⟩]) ∧
    (sh.exec ⟨run.stdout, run.stderr, e'⟩ oc).logs = (sh.exec run oc).logs ∧
    (trimSpace run.stderr ≠ "" →
      (⟨Level.error, trimSpace run.stderr, sh.logKVs⟩ : LogRecord)
        ∈ (sh.exec run oc).logs) ∧
    (trimSpace run.stdout ≠ "" →
      (⟨Level.info, trimSpace run.stdout, sh.logKVs⟩ : LogRecord)
        ∈ (sh.exec run oc).logs) := by
  refine ⟨by simp [Shell.exec, hcmd], by simp [Shell.exec, hcmd], ?_, ?_⟩
  · intro h
    simp [Shell.exec, hcmd, h]
  · intro h
    simp [Shell.exec, hcmd, h]

theorem c10_exec_logs_unconditional_witness :
    (((⟨"ls", ["missing"], "", [], [], false⟩ : Shell).exec
        ⟨"out", "warn", some "exit status 1"⟩ (fun _ => Outcome.response 200)).logs
      = (if trimSpace "warn" = "" then []
         else [⟨Level.error, trimSpace "warn", []⟩]) ++
        (if trimSpace "out" = "" then []
         else [⟨Level.info, trimSpace "out", []⟩])) ∧
    (((⟨"ls", ["missing"], "", [], [], false⟩ : Shell).exec
        ⟨"out", "warn", none⟩ (fun _ => Outcome.response 200)).logs
      = ((⟨"ls", ["missing"], "", [], [], false⟩ : Shell).exec
        ⟨"out", "warn", some "exit status 1"⟩ (fun _ => Outcome.response 200)).logs) ∧
    (trimSpace "warn" ≠ "" →
      (⟨Level.error, trimSpace "warn", []⟩ : LogRecord)
        ∈ ((⟨"ls", ["missing"], "", [], [], false⟩ : Shell).exec
            ⟨"out", "warn", some "exit status 1"⟩ (fun _ => Outcome.response 200)).logs) ∧
    (trimSpace "out" ≠ "" →
      (⟨Level.info, trimSpace "out", []⟩ : LogRecord)
        ∈ ((⟨"ls", ["missing"], "", [], [], false⟩ : Shell).exec
            ⟨"out", "warn", some "exit status 1"⟩ (fun _ => Outcome.response 200)).logs) :=
  c10_exec_logs_unconditional ⟨"ls", ["missing"], "", [], [], false⟩
    ⟨"out", "warn", some "exit status 1"⟩ (fun _ => Outcome.response 200) none
    (by decide)

end Gosh
